import Mathlib

/-!
Verification development for the skyTrail flight-visualization pipeline
(`src/sketch2.js`).  The JavaScript number type is modelled as `Option ℚ`
where `none` stands for a non-finite value (`NaN`, and the infinities where
they can arise); this matches the code's pervasive `Number.isFinite` guards.
Host primitives that are transcendental (`Math.PI`, `Math.cos`, `Math.sin`)
are abstracted into a `Prims` record so that every definition stays
executable; theorems quantify over the primitives where their value does not
matter and hypothesise only what the code relies on (e.g. `0 < pi`).
-/

namespace SkyTrail

/-- Whitespace recognised by the model of JavaScript `String.prototype.trim`
(ASCII subset, which covers every input exercised here). -/
def isSpaceJS (c : Char) : Bool :=
  c == ' ' || c == '\t' || c == '\n' || c == '\r' || c == '\x0b' || c == '\x0c'

/-- Model of JavaScript `s.trim()`. -/
def trimStr (s : String) : String :=
  String.mk ((((s.toList).dropWhile isSpaceJS).reverse.dropWhile isSpaceJS).reverse)

/-- JavaScript `Math.round`: round half toward positive infinity. -/
def jsRound (q : ℚ) : ℤ := ⌊q + 1/2⌋

/-- Truncation toward zero, as used by the JavaScript `%` operator. -/
def ratTrunc (q : ℚ) : ℤ := if q < 0 then -⌊-q⌋ else ⌊q⌋

/-- JavaScript remainder operator `a % b` (sign follows the dividend). -/
def jsRem (a b : ℚ) : ℚ := a - b * ratTrunc (a / b)

/-- p5 `constrain(n, low, high) = Math.max(Math.min(n, high), low)`. -/
def constrainQ (n lo hi : ℚ) : ℚ := max (min n hi) lo

/-- p5 `constrain` on integers (used for index clamping). -/
def constrainZ (x lo hi : ℤ) : ℤ := max (min x hi) lo

/-! ### CSV helpers (`splitCSVLine`, `unquote`, line splitting, `Number`) -/

/-- Worker for `splitCSVLine`: walks the characters with the `inQuotes` flag
and the current field accumulator, mirroring the loop in `sketch2.js`. -/
def splitCSVAux : List Char → Bool → String → List String
  | [], _, cur => [cur]
  | '"' :: '"' :: rest2, true, cur => splitCSVAux rest2 true (cur.push '"')
  | '"' :: rest, true, cur => splitCSVAux rest false cur
  | '"' :: rest, false, cur => splitCSVAux rest true cur
  | ',' :: rest, true, cur => splitCSVAux rest true (cur.push ',')
  | ',' :: rest, false, cur => cur :: splitCSVAux rest false ""
  | c :: rest, inQ, cur => splitCSVAux rest inQ (cur.push c)

/-- `splitCSVLine(line)`: quote-aware field splitting. -/
def splitCSVLine (line : String) : List String := splitCSVAux line.toList false ""

/-- Left-to-right replacement of doubled quotes, the model of
`s.replace(/""/g, '"')`. -/
def replaceDQ : List Char → List Char
  | '"' :: '"' :: rest => '"' :: replaceDQ rest
  | c :: rest => c :: replaceDQ rest
  | [] => []

/-- `unquote(s)`: trim, then strip one layer of surrounding quotes and
un-escape doubled quotes. -/
def unquote (s : String) : String :=
  let t := trimStr s
  let cs := t.toList
  if 2 ≤ cs.length ∧ cs.head? = some '"' ∧ cs.getLast? = some '"' then
    String.mk (replaceDQ ((cs.drop 1).dropLast))
  else t

/-- Worker for line splitting on the regex `/\r?\n/`. -/
def splitLinesAux : List Char → String → List String
  | [], cur => [cur]
  | '\r' :: '\n' :: rest, cur => cur :: splitLinesAux rest ""
  | '\n' :: rest, cur => cur :: splitLinesAux rest ""
  | c :: rest, cur => splitLinesAux rest (cur.push c)

/-- `text.split(/\r?\n/)`. -/
def splitLinesJS (text : String) : List String := splitLinesAux text.toList ""

/-- Digit value of a character, if it is a decimal digit. -/
def digitVal? (c : Char) : Option ℕ := if c.isDigit then some (c.toNat - 48) else none

/-- Take the longest prefix of decimal digits. -/
def takeDigits : List Char → List ℕ × List Char
  | [] => ([], [])
  | c :: rest =>
    match digitVal? c with
    | some d => let p := takeDigits rest; (d :: p.1, p.2)
    | none => ([], c :: rest)

/-- Value of a digit list read most-significant first. -/
def natOfDigits (ds : List ℕ) : ℕ := ds.foldl (fun a d => a * 10 + d) 0

/-- Exponent digits: must be nonempty and consume the whole remainder. -/
def parseExpDigits (cs : List Char) : Option ℕ :=
  let p := takeDigits cs
  if p.1.isEmpty ∨ ¬ p.2.isEmpty then none else some (natOfDigits p.1)

/-- Optionally signed exponent digits. -/
def parseSignedExp : List Char → Option ℤ
  | '+' :: rest => (parseExpDigits rest).map (fun n => (n : ℤ))
  | '-' :: rest => (parseExpDigits rest).map (fun n => -(n : ℤ))
  | rest => (parseExpDigits rest).map (fun n => (n : ℤ))

/-- Exponent part of a decimal literal (empty means exponent 0). -/
def parseExpPart : List Char → Option ℤ
  | [] => some 0
  | 'e' :: rest => parseSignedExp rest
  | 'E' :: rest => parseSignedExp rest
  | _ => none

/-- Unsigned decimal literal `digits [. digits] [exponent]` (at least one
digit overall).  This is the portion of the host `Number` grammar the data
format uses; other forms (hex, `Infinity`, …) are treated as non-finite. -/
def parseDecCore (cs : List Char) : Option ℚ :=
  let p := takeDigits cs
  match p.2 with
  | '.' :: r2 =>
    let f := takeDigits r2
    if p.1.isEmpty ∧ f.1.isEmpty then none
    else
      match parseExpPart f.2 with
      | none => none
      | some e =>
        some (((natOfDigits p.1 : ℚ) + (natOfDigits f.1 : ℚ) / (10 : ℚ) ^ f.1.length) * (10 : ℚ) ^ e)
  | r1 =>
    if p.1.isEmpty then none
    else
      match parseExpPart r1 with
      | none => none
      | some e => some ((natOfDigits p.1 : ℚ) * (10 : ℚ) ^ e)

/-- Model of JavaScript `Number(string)`: trimmed empty string is `0`,
otherwise an optionally signed decimal literal; anything else is `NaN`. -/
def jsNumber (s : String) : Option ℚ :=
  let t := trimStr s
  match t.toList with
  | [] => some 0
  | '+' :: rest => parseDecCore rest
  | '-' :: rest => (parseDecCore rest).map (fun q => -q)
  | cs => parseDecCore cs

/-- `Number` applied to a possibly-`undefined` value (`Number(undefined) = NaN`). -/
def jsNumberO : Option String → Option ℚ
  | none => none
  | some s => jsNumber s

/-! ### Rows and `parseFromCSVText` -/

/-- One parsed telemetry sample (`rows` element in `sketch2.js`). -/
structure Row where
  lat : Option ℚ
  lon : Option ℚ
  alt : Option ℚ
  spd : Option ℚ
  hdg : Option ℚ
  utc : String
  timestampMs : Option ℚ
deriving DecidableEq, Repr

/-- Placeholder row used to state positional facts. -/
def row0 : Row := ⟨none, none, none, none, none, "", none⟩

/-- `rows[i]` with JavaScript out-of-range reads mapped to the placeholder. -/
def rowAt (rows : List Row) (i : ℕ) : Row := (rows.get? i).getD row0

/-- Case-insensitive header search; `-1` encodes "absent" as in
`Array.prototype.findIndex`. -/
def jsFindIdxAux (name : String) : List String → ℕ → ℤ
  | [], _ => -1
  | h :: rest, i => if h.toLower == name.toLower then (i : ℤ) else jsFindIdxAux name rest (i + 1)

/-- `headers.findIndex(h => h.toLowerCase() === name.toLowerCase())`. -/
def jsFindIdx (headers : List String) (name : String) : ℤ := jsFindIdxAux name headers 0

/-- Resolved column indices (` -1` when the header is absent). -/
structure Indices where
  iPos : ℤ
  iAlt : ℤ
  iSpd : ℤ
  iHdg : ℤ
  iUtc : ℤ
  iTs : ℤ
deriving DecidableEq, Repr

/-- Header resolution step of `parseFromCSVText`. -/
def mkIndices (headers : List String) : Indices :=
  ⟨jsFindIdx headers "Position", jsFindIdx headers "Altitude", jsFindIdx headers "Speed",
   jsFindIdx headers "Direction", jsFindIdx headers "UTC", jsFindIdx headers "Timestamp"⟩

/-- `cols[i]` for an integer index: `undefined` (`none`) when out of range or
negative. -/
def getColJS (cols : List String) (i : ℤ) : Option String :=
  if 0 ≤ i then cols.get? i.toNat else none

/-- The Position extraction of the row loop: yields the unquoted position
string when it is truthy, `none` when the row is skipped
(`if (!pos) continue`). -/
def extractPos (ix : Indices) (cols : List String) : Option String :=
  let posRaw : Option String := if 0 ≤ ix.iPos then getColJS cols ix.iPos else some ""
  match posRaw with
  | none => none
  | some raw =>
    let p := unquote raw
    if p = "" then none else some p

/-- Worker for `pos.split(',')`. -/
def splitCommaAux : List Char → String → List String
  | [], cur => [cur]
  | ',' :: rest, cur => cur :: splitCommaAux rest ""
  | c :: rest, cur => splitCommaAux rest (cur.push c)

/-- `s.split(',')`. -/
def jsSplitComma (s : String) : List String := splitCommaAux s.toList ""

/-- Builds the row object pushed by the parse loop, given the already
extracted truthy position string. -/
def mkRow (ix : Indices) (cols : List String) (pos : String) : Row :=
  let parts := jsSplitComma pos
  { lat := jsNumberO (parts.get? 0)
    lon := jsNumberO (parts.get? 1)
    alt := if 0 ≤ ix.iAlt then jsNumberO (getColJS cols ix.iAlt) else none
    spd := if 0 ≤ ix.iSpd then jsNumberO (getColJS cols ix.iSpd) else none
    hdg := if 0 ≤ ix.iHdg then jsNumberO (getColJS cols ix.iHdg) else none
    utc :=
      match (if 0 ≤ ix.iUtc then getColJS cols ix.iUtc else none) with
      | some s => if s = "" then "" else unquote s
      | none => ""
    timestampMs :=
      if 0 ≤ ix.iTs then (jsNumberO (getColJS cols ix.iTs)).map (fun ts => ts * 1000)
      else none }

/-- The data-line loop of `parseFromCSVText`, with the accumulator playing
the role of the mutable `rows` array (`rows.push`). -/
def parseLoopAcc (ix : Indices) : List String → List Row → List Row
  | [], acc => acc
  | l :: ls, acc =>
    let cols := splitCSVLine l
    if cols.length = 0 then parseLoopAcc ix ls acc
    else
      match extractPos ix cols with
      | none => parseLoopAcc ix ls acc
      | some p => parseLoopAcc ix ls (acc ++ [mkRow ix cols p])

/-- The same loop without the `if (!cols.length) continue` guard; used to
state that the guard is unreachable. -/
def parseLoopAccNoGuard (ix : Indices) : List String → List Row → List Row
  | [], acc => acc
  | l :: ls, acc =>
    let cols := splitCSVLine l
    match extractPos ix cols with
    | none => parseLoopAccNoGuard ix ls acc
    | some p => parseLoopAccNoGuard ix ls (acc ++ [mkRow ix cols p])

/-- Non-blank lines of the CSV text
(`text.split(/\r?\n/).filter(l => l.trim().length)`). -/
def linesOf (text : String) : List String :=
  (splitLinesJS text).filter (fun l => (trimStr l).length ≠ 0)

/-- Column indices derived from the header line of a CSV text. -/
def indicesOfText (text : String) : Indices :=
  mkIndices ((splitCSVLine ((linesOf text).headD "")).map trimStr)

/-- `parseFromCSVText`: the sample sequence produced from a CSV text. -/
def parseFromCSVText (text : String) : List Row :=
  if text = "" then []
  else
    match linesOf text with
    | [] => []
    | hdr :: dataLines => parseLoopAcc (mkIndices ((splitCSVLine hdr).map trimStr)) dataLines []

/-- One data line turned into at most one sample: `none` exactly when the
loop body skips the line. -/
def lineRow (ix : Indices) (l : String) : Option Row :=
  let cols := splitCSVLine l
  match extractPos ix cols with
  | none => none
  | some p => some (mkRow ix cols p)

/-! ### Running altitude/speed ranges and the finalize nudge -/

/-- The global `range` object: min/max altitude and speed. -/
structure RangeSt where
  altMin : ℚ
  altMax : ℚ
  spdMin : ℚ
  spdMax : ℚ
deriving DecidableEq, Repr

/-- Sentinel initialisation `{ altMin: 1e9, altMax: -1e9, spdMin: 1e9, spdMax: -1e9 }`. -/
def initRange : RangeSt := ⟨10 ^ 9, -(10 ^ 9), 10 ^ 9, -(10 ^ 9)⟩

/-- The per-row range update of the parse loop (only finite fields count). -/
def updRange (rg : RangeSt) (r : Row) : RangeSt :=
  let rg1 :=
    match r.alt with
    | some a => { rg with altMin := min rg.altMin a, altMax := max rg.altMax a }
    | none => rg
  match r.spd with
  | some v => { rg1 with spdMin := min rg1.spdMin v, spdMax := max rg1.spdMax v }
  | none => rg1

/-- Range accumulated over the retained samples. -/
def rangeOf (rows : List Row) : RangeSt := rows.foldl updRange initRange

/-- The degenerate-range nudge in `finalizeAfterRowsParsed`:
`if (min === max) max = min + 1`, applied to altitude then speed. -/
def nudgeRange (rg : RangeSt) : RangeSt :=
  let rg1 := if rg.altMin = rg.altMax then { rg with altMax := rg.altMin + 1 } else rg
  if rg1.spdMin = rg1.spdMax then { rg1 with spdMax := rg1.spdMin + 1 } else rg1

/-- One min/max cell updated by an optional observation; `updRange` is two
independent copies of this. -/
def updPair (p : ℚ × ℚ) (v : Option ℚ) : ℚ × ℚ :=
  match v with
  | some a => (min p.1 a, max p.2 a)
  | none => p

/-! ### Flight-phase detection (`finalizeAfterRowsParsed`) -/

/-- Takeoff condition: finite timestamp, finite altitude, altitude > 0. -/
def takeoffPred (r : Row) : Bool :=
  match r.timestampMs, r.alt with
  | some _, some a => decide (0 < a)
  | _, _ => false

/-- First index at or after `k` (in absolute numbering) whose element
satisfies `p`; the forward-scan-with-break pattern of the code. -/
def findIdxFrom (p : Row → Bool) : List Row → ℕ → Option ℕ
  | [], _ => none
  | r :: rest, k => if p r then some k else findIdxFrom p rest (k + 1)

/-- `takeoffIdx`: first row that is airborne with a valid timestamp. -/
def takeoffIdxOf (rows : List Row) : Option ℕ := findIdxFrom takeoffPred rows 0

/-- Landing condition on a (previous, current) row pair: finite altitudes,
previous nonzero, current exactly zero, current timestamp finite. -/
def landingPredB (prev cur : Row) : Bool :=
  match prev.alt, cur.alt, cur.timestampMs with
  | some pa, some ca, some _ => decide (pa ≠ 0) && decide (ca = 0)
  | _, _, _ => false

/-- Scan of consecutive pairs, carrying the previous row; `i` is the absolute
index of the head of the remaining list. -/
def pairScan (prev : Row) : List Row → ℕ → Option ℕ
  | [], _ => none
  | c :: rest, i => if landingPredB prev c then some i else pairScan c rest (i + 1)

/-- `landingIdx`: first touchdown transition strictly after the takeoff
index `t`. -/
def landingIdxOf (rows : List Row) (t : ℕ) : Option ℕ :=
  match rows.drop t with
  | [] => none
  | p :: rest => pairScan p rest (t + 1)

/-- First row with a finite timestamp (fallback start of the average-speed
span). -/
def firstFiniteTsIdx (rows : List Row) : Option ℕ :=
  findIdxFrom (fun r => r.timestampMs.isSome) rows 0

/-- Worker keeping the rightmost index with a finite timestamp. -/
def lastFiniteAux : List Row → ℕ → Option ℕ → Option ℕ
  | [], _, best => best
  | r :: rest, i, best =>
    lastFiniteAux rest (i + 1) (if r.timestampMs.isSome then some i else best)

/-- Last row with a finite timestamp (fallback end of the span). -/
def lastFiniteTsIdx (rows : List Row) : Option ℕ := lastFiniteAux rows 0 none

/-- `iStart`/`iEnd` of `updateAvgSpeedDuringFlight`, with `-1` sentinels as
in the code. -/
def spanOf (rows : List Row) : ℤ × ℤ :=
  let tIdx : ℤ := match takeoffIdxOf rows with | some i => (i : ℤ) | none => -1
  let lIdx : ℤ :=
    match takeoffIdxOf rows with
    | some ti => match landingIdxOf rows ti with | some j => (j : ℤ) | none => -1
    | none => -1
  let iStart : ℤ :=
    if tIdx < 0 then match firstFiniteTsIdx rows with | some i => (i : ℤ) | none => tIdx
    else tIdx
  let iEnd : ℤ :=
    if lIdx ≤ iStart then match lastFiniteTsIdx rows with | some i => (i : ℤ) | none => lIdx
    else lIdx
  (iStart, iEnd)

/-- The validity guard `!(iStart >= 0) || !(iEnd > iStart)` as an optional
natural span. -/
def detectedSpan (rows : List Row) : Option (ℕ × ℕ) :=
  let p := spanOf rows
  if 0 ≤ p.1 ∧ p.1 < p.2 then some (p.1.toNat, p.2.toNat) else none

/-- Loop body of the average-speed accumulation: given the accumulator
`(weightedSum, totalDt)` and a segment start index, add the segment's
contribution or skip it exactly as the chain of `continue`s does. -/
def segStep (rows : List Row) (acc : ℚ × ℚ) (i : ℕ) : ℚ × ℚ :=
  match rows.get? i, rows.get? (i + 1) with
  | some a, some b =>
    match a.timestampMs, b.timestampMs with
    | some ta, some tb =>
      let dt := (tb - ta) / 1000
      if dt ≤ 0 then acc
      else
        match a.alt, b.alt with
        | some aa, some ba =>
          if aa ≤ 0 ∨ ba ≤ 0 then acc
          else
            match a.spd, b.spd with
            | some sa, some sb => (acc.1 + 1/2 * (sa + sb) * dt, acc.2 + dt)
            | _, _ => acc
        | _, _ => acc
    | _, _ => acc
  | _, _ => acc

/-- `updateAvgSpeedDuringFlight`: the displayed average in knots, `none`
when the code shows the placeholder. -/
def avgSpeedOf (rows : List Row) : Option ℚ :=
  match detectedSpan rows with
  | none => none
  | some (s, e) =>
    let acc := (List.range' s (e - s)).foldl (segStep rows) (0, 0)
    if 0 < acc.2 then some (acc.1 / acc.2) else none

/-- Per-segment contribution `(0.5*(sa+sb)*dt, dt)` when the segment
qualifies (positive dt, both endpoints airborne with finite altitude, both
speeds finite), `(0, 0)` otherwise — the trapezoidal-average description. -/
def segContrib (rows : List Row) (i : ℕ) : ℚ × ℚ :=
  match rows.get? i, rows.get? (i + 1) with
  | some a, some b =>
    match a.timestampMs, b.timestampMs, a.alt, b.alt, a.spd, b.spd with
    | some ta, some tb, some aa, some ba, some sa, some sb =>
      let dt := (tb - ta) / 1000
      if 0 < dt ∧ 0 < aa ∧ 0 < ba then (1/2 * (sa + sb) * dt, dt) else (0, 0)
    | _, _, _, _, _, _ => (0, 0)
  | _, _ => (0, 0)

/-- Weighted-sum numerator of the trapezoidal average over `[s, e)`. -/
def trapWeighted (rows : List Row) (s e : ℕ) : ℚ :=
  ((List.range' s (e - s)).map (fun i => (segContrib rows i).1)).sum

/-- Total in-flight duration of the trapezoidal average over `[s, e)`. -/
def trapDuration (rows : List Row) (s e : ℕ) : ℚ :=
  ((List.range' s (e - s)).map (fun i => (segContrib rows i).2)).sum

/-! ### Track direction (`updateTrackDir`) -/

/-- Eastbound / westbound classification ('E' / 'W'); `none` models the
`null` (unknown) result. -/
inductive Dir where
  | E : Dir
  | W : Dir
deriving DecidableEq, Repr

/-- The wrapped longitude delta `((lon2 - lon1 + 540) % 360) - 180`. -/
def dlonOf (lo1 lo2 : ℚ) : ℚ := jsRem (lo2 - lo1 + 540) 360 - 180

/-- `updateTrackDir(lat1, lon1, lat2, lon2)`. -/
def updateTrackDir (lat1 lon1 lat2 lon2 : Option ℚ) : Option Dir :=
  match lat1, lon1, lat2, lon2 with
  | some la1, some _lo1, some la2, some _lo2 =>
    let dlon := dlonOf _lo1 _lo2
    if |dlon| < 1/1000000 then
      if |la2 - la1| < 1/1000000 then none
      else if la1 < la2 then some Dir.E else some Dir.W
    else if 0 < dlon then some Dir.E else some Dir.W
  | _, _, _, _ => none

/-! ### Rosette geometry (`buildRosettePoints`) -/

/-- Abstract host math primitives: the constant π and the trigonometric
functions used to place points.  Theorems quantify over these; hypotheses
state only what the code relies on. -/
structure Prims where
  pi : ℚ
  cos : ℚ → ℚ
  sin : ℚ → ℚ

/-- A rosette point (fields in the order they are assembled in the code). -/
structure Pt where
  x : Option ℚ
  y : Option ℚ
  alt : Option ℚ
  spd : Option ℚ
  hdg : Option ℚ
  lat : Option ℚ
  lon : Option ℚ
  utc : String
  timestampMs : Option ℚ
  idx : ℕ
  angle : Option ℚ
  radius : Option ℚ
deriving DecidableEq, Repr

/-- `timeFracForRow`: `(ms - start)/(end - start)` with `null` timestamps
coerced to 0 (JavaScript) and non-finite results collapsed to `none`. -/
def timeFrac (st en : Option ℚ) (ts : Option ℚ) : Option ℚ :=
  match ts with
  | none => none
  | some m =>
    let s := st.getD 0
    let e := en.getD 0
    if e - s = 0 then none else some ((m - s) / (e - s))

/-- p5 `map(value, a, b, c, d, true)` on an optional value; a zero-width
input interval yields a non-finite result. -/
def mapClampedO (v : Option ℚ) (a b c d : ℚ) : Option ℚ :=
  match v with
  | none => none
  | some x =>
    if b - a = 0 then none
    else
      let nv := (x - a) / (b - a) * (d - c) + c
      some (if c < d then constrainQ nv c d else constrainQ nv d c)

/-- The point built for row `i`. -/
def mkPt (P : Prims) (cx cy baseR varR : ℚ) (st en : Option ℚ) (altMin altMax : ℚ)
    (i : ℕ) (row : Row) : Pt :=
  let t := timeFrac st en row.timestampMs
  let angle := t.map (fun tv => P.pi / 2 + tv * (2 * P.pi))
  let radius := (mapClampedO row.alt altMin altMax 0 varR).map (fun m => baseR + m)
  let x :=
    match angle, radius with
    | some a, some r => some (cx + P.cos a * r)
    | _, _ => none
  let y :=
    match angle, radius with
    | some a, some r => some (cy + P.sin a * r)
    | _, _ => none
  ⟨x, y, row.alt, row.spd, row.hdg, row.lat, row.lon, row.utc, row.timestampMs, i, angle, radius⟩

/-- The per-row point list of `buildRosettePoints` (before closing). -/
def rosettePts (P : Prims) (w h : ℚ) (st en : Option ℚ) (altMin altMax : ℚ)
    (rows : List Row) : List Pt :=
  let cx := w * (1/2)
  let cy := h * (1/2)
  let maxRadius := min w h / 2 - 24 * 2
  let varR := maxRadius * (3/5)
  let baseR := maxRadius - varR
  rows.enum.map (fun p => mkPt P cx cy baseR varR st en altMin altMax p.1 p.2)

/-- The closing step `pts.push(pts[0], pts[1])`.  Elements become
`Option Pt` because the JavaScript array can hold `undefined`: when there
is only one sample, `pts[1]` is undefined at push time. -/
def closeLoop (pts : List Pt) : List (Option Pt) :=
  pts.map some ++ [pts.get? 0, pts.get? 1]

/-- `buildRosettePoints`: per-row points, then `pts.push(pts[0], pts[1])`. -/
def buildRosettePoints (P : Prims) (w h : ℚ) (st en : Option ℚ) (altMin altMax : ℚ)
    (rows : List Row) : List (Option Pt) :=
  closeLoop (rosettePts P w h st en altMin altMax rows)

/-! ### Speed encoder (`speedColor`, `lerpRGB`) -/

/-- An RGB triple before rounding bookkeeping (stored as integers). -/
structure SCol where
  r : ℤ
  g : ℤ
  b : ℤ
  a : ℚ
deriving DecidableEq, Repr

/-- One speed band; `max = none` models the `Infinity` upper bound of the
last band. -/
structure Band where
  bmin : ℚ
  bmax : Option ℚ
  color : ℤ × ℤ × ℤ
deriving DecidableEq, Repr

/-- The fixed `SPEED_BANDS` table. -/
def SPEED_BANDS : List Band :=
  [⟨0, some 40, (255, 66, 69)⟩,
   ⟨40, some 160, (255, 146, 48)⟩,
   ⟨160, some 300, (48, 209, 88)⟩,
   ⟨300, some 420, (0, 145, 255)⟩,
   ⟨420, some 520, (219, 52, 242)⟩,
   ⟨520, none, (255, 55, 95)⟩]

/-- `lerpRGB(c0, c1, t)` with `Math.round` on each channel. -/
def lerpRGB (c0 c1 : ℤ × ℤ × ℤ) (t : ℚ) : ℤ × ℤ × ℤ :=
  (jsRound ((c0.1 : ℚ) + ((c1.1 : ℚ) - (c0.1 : ℚ)) * t),
   jsRound ((c0.2.1 : ℚ) + ((c1.2.1 : ℚ) - (c0.2.1 : ℚ)) * t),
   jsRound ((c0.2.2 : ℚ) + ((c1.2.2 : ℚ) - (c0.2.2 : ℚ)) * t))

/-- The band-matching test `spd >= band.min && spd < band.max` (a finite
speed is always below the infinite upper bound). -/
def bandMatch (v : ℚ) (b : Band) : Bool :=
  decide (b.bmin ≤ v) && (match b.bmax with | some m => decide (v < m) | none => true)

/-- Index of the first band containing the speed, if any. -/
def bandIdxAux (v : ℚ) : List Band → ℕ → Option ℕ
  | [], _ => none
  | b :: rest, i => if bandMatch v b then some i else bandIdxAux v rest (i + 1)

/-- First matching band index in `SPEED_BANDS`. -/
def bandIdxOf (v : ℚ) : Option ℕ := bandIdxAux v SPEED_BANDS 0

/-- Fallback band used for out-of-band and non-finite speeds: the last
band's color with alpha 92. -/
def speedColorFallback : SCol :=
  let c := ((SPEED_BANDS.getLast?).getD ⟨0, none, (0, 0, 0)⟩).color
  ⟨c.1, c.2.1, c.2.2, 92⟩

/-- Gradient computation inside the matched band `b` at index `i`: blend
with the previous band near the lower edge and toward the next band near a
finite upper edge (smoothing width 15 knots). -/
def bandGradient (v : ℚ) (i : ℕ) (b : Band) : ℤ × ℤ × ℤ :=
  let g0 := b.color
  let g1 :=
    if 0 < i then
      match SPEED_BANDS.get? (i - 1) with
      | some pb =>
        let distFromMin := v - b.bmin
        if distFromMin < 15 then
          lerpRGB (lerpRGB pb.color b.color (1/2)) b.color (constrainQ (distFromMin / 15) 0 1)
        else g0
      | none => g0
    else g0
  if i < SPEED_BANDS.length - 1 then
    match b.bmax, SPEED_BANDS.get? (i + 1) with
    | some m, some nb =>
      let distToMax := m - v
      if distToMax < 15 then
        lerpRGB g1 (lerpRGB b.color nb.color (1/2)) (constrainQ (1 - distToMax / 15) 0 1)
      else g1
    | _, _ => g1
  else g1

/-- `speedColor(spd)`: banded color with cross-band smoothing; non-finite
or unmatched speeds use the fallback. -/
def speedColor (spd : Option ℚ) : SCol :=
  match spd with
  | none => speedColorFallback
  | some v =>
    match bandIdxOf v with
    | some i =>
      match SPEED_BANDS.get? i with
      | some b =>
        let g := bandGradient v i b
        ⟨g.1, g.2.1, g.2.2, 100⟩
      | none => speedColorFallback
    | none => speedColorFallback

/-! ### Pointer-to-sample resolver (`getIndexFromMouse` after `atan2`) -/

/-- Forward angle convention of the geometry mapper:
`angle = π/2 + t·2π`. -/
def forwardAngle (piv t : ℚ) : ℚ := piv / 2 + t * (2 * piv)

/-- The resolver's inversion of the angle convention:
`t = ((angle − π/2) mod 2π) / 2π`, with the negative-remainder fixup. -/
def invertAngleT (piv ang : ℚ) : ℚ :=
  let t := jsRem (ang - piv / 2) (2 * piv)
  let t2 := if t < 0 then t + 2 * piv else t
  t2 / (2 * piv)

/-- `targetTime = start + t·(end − start)` with `null` endpoints coerced
to 0. -/
def targetOf (st en : Option ℚ) (t : ℚ) : ℚ :=
  st.getD 0 + t * (en.getD 0 - st.getD 0)

/-- The nearest-timestamp linear scan: accumulator is
`(bestIdx, bestDiff)` with `none` standing for the initial `Infinity`; rows
with non-finite timestamps never win because `NaN < bestDiff` is false. -/
def bestScan (target : ℚ) : List Row → ℕ → ℕ × Option ℚ → ℕ × Option ℚ
  | [], _, acc => acc
  | r :: rest, i, acc =>
    match r.timestampMs with
    | none => bestScan target rest (i + 1) acc
    | some ts =>
      let d := |ts - target|
      let better := match acc.2 with | none => true | some bd => decide (d < bd)
      if better then bestScan target rest (i + 1) (i, some d)
      else bestScan target rest (i + 1) acc

/-- The remainder of `getIndexFromMouse` once the pointer angle is known:
invert the angle, derive the target time, scan for the nearest sample, and
clamp; falls back to an index-proportional guess when no timestamp is
finite. -/
def getIndexFromAngle (piv : ℚ) (rows : List Row) (st en : Option ℚ) (ang : ℚ)
    (count : ℕ) : ℤ :=
  let t := invertAngleT piv ang
  let target := targetOf st en t
  let best := bestScan target rows 0 (0, none)
  match best.2 with
  | some _ => constrainZ (best.1 : ℤ) 0 ((count : ℤ) - 1)
  | none => constrainZ (jsRound (t * ((count : ℚ) - 1))) 0 ((count : ℤ) - 1)

/-! ### Concrete example datasets and auxiliary predicates used in theorems -/

/-- A single-sample dataset whose finite altitude `2e9` lies above the
`1e9` sentinel. -/
def rowsHugeAlt : List Row := [{ row0 with alt := some (2 * 10 ^ 9) }]
/-- The spec's phase-detection example: altitudes `[0,0,150,300,150,0,0]`
with strictly increasing finite timestamps (1000·i ms) and finite speeds. -/
def rowsPhaseEx : List Row :=
  ([(0 : ℚ), 0, 150, 300, 150, 0, 0]).enum.map
    (fun p => { row0 with
                  alt := some p.2,
                  spd := some (100 * (p.1 : ℚ)),
                  timestampMs := some (1000 * (p.1 : ℚ)) })
/-- Channel-wise closeness of two encoded colors: every RGB channel differs
by at most one rounding unit. -/
def chanClose (c d : SCol) : Prop :=
  |c.r - d.r| ≤ 1 ∧ |c.g - d.g| ≤ 1 ∧ |c.b - d.b| ≤ 1

instance (c d : SCol) : Decidable (chanClose c d) := by
  unfold chanClose; infer_instance
/-- Concrete primitives for evaluating the geometry on sample inputs (the
closure facts do not depend on their values). -/
def prims0 : Prims := ⟨3, fun _ => 1, fun _ => 0⟩

/-- A one-sample track. -/
def rowsOne : List Row := [{ row0 with alt := some 5, timestampMs := some 0 }]

/-- A two-sample track. -/
def rowsTwo : List Row :=
  [{ row0 with alt := some 5, timestampMs := some 0 },
   { row0 with alt := some 6, timestampMs := some 1000 }]
/-- "The row's timestamp, when finite, is strictly farther from the target
than `dmin`" — the uniqueness side condition of the nearest-sample scan. -/
def fartherThan (dmin target : ℚ) : Option ℚ → Prop
  | none => True
  | some ts => dmin < |ts - target|

instance (dmin target : ℚ) (o : Option ℚ) : Decidable (fartherThan dmin target o) := by
  cases o <;> simp only [fartherThan] <;> infer_instance
/-- Three samples with timestamps 0, 1000, 2000 ms. -/
def rowsPtr : List Row :=
  [{ row0 with timestampMs := some 0 },
   { row0 with timestampMs := some 1000 },
   { row0 with timestampMs := some 2000 }]

/-! ### Helper lemmas about the parser -/

theorem splitCSVAux_ne_nil (cs : List Char) (inQ : Bool) (cur : String) :
    splitCSVAux cs inQ cur ≠ [] := by
  induction cs, inQ, cur using splitCSVAux.induct <;> simp_all [splitCSVAux]

theorem unquote_empty : unquote "" = "" := rfl

theorem extractPos_nil (ix : Indices) : extractPos ix [] = none := by
  unfold extractPos getColJS
  by_cases h : (0 : ℤ) ≤ ix.iPos <;> simp [h, unquote_empty]

theorem parseLoopAcc_eq_filterMap (ix : Indices) (ls : List String) :
    ∀ acc : List Row, parseLoopAcc ix ls acc = acc ++ ls.filterMap (lineRow ix) := by
  induction ls with
  | nil => intro acc; simp [parseLoopAcc]
  | cons l ls ih =>
    intro acc
    by_cases h : (splitCSVLine l).length = 0
    · have hnil : splitCSVLine l = [] := List.length_eq_zero.mp h
      have hep : extractPos ix (splitCSVLine l) = none := by rw [hnil]; exact extractPos_nil ix
      simp [parseLoopAcc, h, lineRow, hep, ih]
    · cases hp : extractPos ix (splitCSVLine l) with
      | none => simp [parseLoopAcc, h, lineRow, hp, ih]
      | some p => simp [parseLoopAcc, h, lineRow, hp, ih]

theorem parseLoopAccNoGuard_eq_filterMap (ix : Indices) (ls : List String) :
    ∀ acc : List Row, parseLoopAccNoGuard ix ls acc = acc ++ ls.filterMap (lineRow ix) := by
  induction ls with
  | nil => intro acc; simp [parseLoopAccNoGuard]
  | cons l ls ih =>
    intro acc
    cases hp : extractPos ix (splitCSVLine l) with
    | none => simp [parseLoopAccNoGuard, lineRow, hp, ih]
    | some p => simp [parseLoopAccNoGuard, lineRow, hp, ih]

theorem length_filterMap_lineRow (ix : Indices) (l : List String) :
    (l.filterMap (lineRow ix)).length
      = l.countP (fun s => (extractPos ix (splitCSVLine s)).isSome) := by
  induction l with
  | nil => rfl
  | cons x l ih =>
    cases hx : extractPos ix (splitCSVLine x) with
    | none =>
      have hl : lineRow ix x = none := by simp [lineRow, hx]
      simp [List.filterMap_cons, hl, List.countP_cons, hx, ih]
    | some p =>
      have hl : lineRow ix x = some (mkRow ix (splitCSVLine x) p) := by simp [lineRow, hx]
      simp [List.filterMap_cons, hl, List.countP_cons, hx, ih]

theorem countP_add_countP_not (p : String → Bool) (l : List String) :
    l.countP p + l.countP (fun x => !(p x)) = l.length := by
  induction l with
  | nil => rfl
  | cons x l ih =>
    by_cases hx : p x <;> simp [List.countP_cons, hx] <;> omega

/-- Claim C10: the CSV line splitter always returns at least one field (the
trailing accumulator is always pushed), hence the `if (!cols.length)
continue` guard in the row loop never fires: the guarded loop and the
guard-free loop agree on every input. -/
theorem claim10_theorem :
    (∀ line : String, splitCSVLine line ≠ []) ∧
    (∀ (ix : Indices) (ls : List String) (acc : List Row),
       parseLoopAcc ix ls acc = parseLoopAccNoGuard ix ls acc) := by
  constructor
  · intro line; exact splitCSVAux_ne_nil line.toList false ""
  · intro ix ls acc
    rw [parseLoopAcc_eq_filterMap, parseLoopAccNoGuard_eq_filterMap]

/-- Witness for claim C10 at concrete inputs. -/
theorem claim10_witness :
    splitCSVLine "" ≠ [] ∧
    parseLoopAcc ⟨0, -1, -1, -1, -1, -1⟩ ["\"1,2\""] []
      = parseLoopAccNoGuard ⟨0, -1, -1, -1, -1, -1⟩ ["\"1,2\""] [] :=
  ⟨claim10_theorem.1 "", claim10_theorem.2 ⟨0, -1, -1, -1, -1, -1⟩ ["\"1,2\""] []⟩

/-- Claim C1 (amended): a data row is excluded from the sample sequence if
and only if its Position field is empty (or its column missing) after
unquoting — rows whose position does not split into a lat,lon pair are
still retained, with `NaN` components.  Consequently, of the `N − 1` data
lines, exactly those with a truthy position survive:
`samples = N − 1 − K` where `K` counts the empty-position rows only. -/
theorem claim1_theorem (text : String) :
    parseFromCSVText text = ((linesOf text).drop 1).filterMap (lineRow (indicesOfText text)) ∧
    (parseFromCSVText text).length
      = ((linesOf text).drop 1).countP
          (fun l => (extractPos (indicesOfText text) (splitCSVLine l)).isSome) ∧
    (parseFromCSVText text).length
        + ((linesOf text).drop 1).countP
            (fun l => !(extractPos (indicesOfText text) (splitCSVLine l)).isSome)
      = (linesOf text).length - 1 := by
  have key : parseFromCSVText text
      = ((linesOf text).drop 1).filterMap (lineRow (indicesOfText text)) := by
    by_cases ht : text = ""
    · subst ht; rfl
    · unfold parseFromCSVText
      rcases hl : linesOf text with _ | ⟨hdr, dataLines⟩
      · simp [ht, hl]
      · simp only [ht, if_false, hl]
        rw [parseLoopAcc_eq_filterMap]
        simp [indicesOfText, hl]
  refine ⟨key, ?_, ?_⟩
  · rw [key, length_filterMap_lineRow]
  · rw [key, length_filterMap_lineRow, countP_add_countP_not]
    cases linesOf text <;> simp

/-- Claim C1 counterexample: in a 3-line dataset whose last data row has the
position `5` (no comma, so it does not split into a lat,lon pair), the claim
predicts `3 − 1 − 1 = 1` sample, but the parser keeps the row (with a `NaN`
longitude) and yields 2 samples. -/
theorem claim1_counterexample :
    (linesOf "Position\n\"1,2\"\n5").length = 3 ∧
    (parseFromCSVText "Position\n\"1,2\"\n5").length = 2 ∧
    ((parseFromCSVText "Position\n\"1,2\"\n5").get? 1).map Row.lon = some none ∧
    (2 : ℕ) ≠ 3 - 1 - 1 := by
  refine ⟨by with_unfolding_all decide, by with_unfolding_all decide,
    by with_unfolding_all decide, by decide⟩

/-- Witness for claim C1 instantiated at the concrete three-line dataset. -/
theorem claim1_witness :
    parseFromCSVText "Position\n\"1,2\"\n5"
      = ((linesOf "Position\n\"1,2\"\n5").drop 1).filterMap
          (lineRow (indicesOfText "Position\n\"1,2\"\n5")) ∧
    (parseFromCSVText "Position\n\"1,2\"\n5").length
      = ((linesOf "Position\n\"1,2\"\n5").drop 1).countP
          (fun l => (extractPos (indicesOfText "Position\n\"1,2\"\n5") (splitCSVLine l)).isSome) ∧
    (parseFromCSVText "Position\n\"1,2\"\n5").length
        + ((linesOf "Position\n\"1,2\"\n5").drop 1).countP
            (fun l => !(extractPos (indicesOfText "Position\n\"1,2\"\n5") (splitCSVLine l)).isSome)
      = (linesOf "Position\n\"1,2\"\n5").length - 1 :=
  claim1_theorem "Position\n\"1,2\"\n5"

/-! ### Range lemmas (claim C8) -/

theorem foldl_updRange_decomp (rows : List Row) (rg : RangeSt) :
    rows.foldl updRange rg =
      ⟨((rows.map Row.alt).foldl updPair (rg.altMin, rg.altMax)).1,
       ((rows.map Row.alt).foldl updPair (rg.altMin, rg.altMax)).2,
       ((rows.map Row.spd).foldl updPair (rg.spdMin, rg.spdMax)).1,
       ((rows.map Row.spd).foldl updPair (rg.spdMin, rg.spdMax)).2⟩ := by
  induction rows generalizing rg with
  | nil => simp
  | cons r rows ih =>
    simp only [List.foldl_cons, List.map_cons, ih]
    cases ha : r.alt <;> cases hs : r.spd <;> simp [updRange, updPair, ha, hs]

theorem updPair_fold_le (l : List (Option ℚ)) :
    ∀ p : ℚ × ℚ, p.1 ≤ p.2 → (l.foldl updPair p).1 ≤ (l.foldl updPair p).2 := by
  induction l with
  | nil => intro p hp; simpa using hp
  | cons v l ih =>
    intro p hp
    cases v with
    | none => exact ih p hp
    | some a =>
      refine ih _ ?_
      exact le_trans (min_le_right p.1 a) (le_max_right p.2 a)

theorem updPair_fold_exists_le (l : List (Option ℚ)) (hex : ∃ v ∈ l, v.isSome) :
    ∀ p : ℚ × ℚ, (l.foldl updPair p).1 ≤ (l.foldl updPair p).2 := by
  induction l with
  | nil => simp at hex
  | cons v l ih =>
    intro p
    cases v with
    | some a =>
      simp only [List.foldl_cons]
      exact updPair_fold_le l _ (le_trans (min_le_right p.1 a) (le_max_right p.2 a))
    | none =>
      have hex2 : ∃ v ∈ l, v.isSome := by
        rcases hex with ⟨w, hw, hws⟩
        rcases List.mem_cons.mp hw with h | h
        · subst h; simp at hws
        · exact ⟨w, h, hws⟩
      exact ih hex2 p

theorem updPair_fold_const (A : ℚ) (l : List (Option ℚ))
    (hall : ∀ v ∈ l, v = some A ∨ v = none) :
    l.foldl updPair (A, A) = (A, A) := by
  induction l with
  | nil => rfl
  | cons v l ih =>
    have hv := hall v (List.mem_cons_self v l)
    have hrest : ∀ v ∈ l, v = some A ∨ v = none :=
      fun w hw => hall w (List.mem_cons_of_mem v hw)
    rcases hv with h | h <;> subst h <;> simp [updPair, ih hrest]

theorem updPair_fold_const_init (A : ℚ) (hlo : -(10 ^ 9) ≤ A) (hhi : A ≤ 10 ^ 9)
    (l : List (Option ℚ)) (hall : ∀ v ∈ l, v = some A ∨ v = none)
    (hex : ∃ v ∈ l, v.isSome) :
    l.foldl updPair (10 ^ 9, -(10 ^ 9)) = (A, A) := by
  induction l with
  | nil => simp at hex
  | cons v l ih =>
    have hv := hall v (List.mem_cons_self v l)
    have hrest : ∀ v ∈ l, v = some A ∨ v = none :=
      fun w hw => hall w (List.mem_cons_of_mem v hw)
    rcases hv with h | h
    · subst h
      have hmin : min ((10 : ℚ) ^ 9) A = A := min_eq_right hhi
      have hmax : max (-(10 : ℚ) ^ 9) A = A := max_eq_right (by linarith)
      simp only [List.foldl_cons, updPair, hmin]
      have : max (-(10 ^ 9) : ℚ) A = A := by
        refine max_eq_right ?_
        linarith
      rw [this]
      exact updPair_fold_const A l hrest
    · subst h
      have hex2 : ∃ v ∈ l, v.isSome := by
        rcases hex with ⟨w, hw, hws⟩
        rcases List.mem_cons.mp hw with h | h
        · subst h; simp at hws
        · exact ⟨w, h, hws⟩
      simpa [updPair] using ih hrest hex2

theorem nudge_alt_fields (rg : RangeSt) :
    (nudgeRange rg).altMin = rg.altMin ∧
    (nudgeRange rg).altMax = (if rg.altMin = rg.altMax then rg.altMin + 1 else rg.altMax) := by
  simp only [nudgeRange]
  split <;> split <;> simp_all

theorem nudge_spd_fields (rg : RangeSt) :
    (nudgeRange rg).spdMin = rg.spdMin ∧
    (nudgeRange rg).spdMax = (if rg.spdMin = rg.spdMax then rg.spdMin + 1 else rg.spdMax) := by
  simp only [nudgeRange]
  split <;> split <;> simp_all

theorem exists_map_isSome_of_rows {rows : List Row} (f : Row → Option ℚ)
    (hex : ∃ r ∈ rows, (f r).isSome) : ∃ v ∈ rows.map f, v.isSome := by
  rcases hex with ⟨r, hr, hrs⟩
  exact ⟨f r, List.mem_map_of_mem f hr, hrs⟩

/-- Claim C8 (amended): after finalization the nudged ranges are never
degenerate — whenever at least one sample has a finite altitude (resp.
speed), `altMin < altMax` (resp. `spdMin < spdMax`); and when every finite
altitude (resp. speed) equals a common value `A` that lies within the
`±1e9` sentinel window, the finalized range is exactly `(A, A + 1)`.
(Outside the sentinel window the sentinels survive the fold and the
`min = A`, `max = A + 1` shape fails — see the counterexample.) -/
theorem claim8_theorem (rows : List Row) :
    ((∃ r ∈ rows, r.alt.isSome) →
       (nudgeRange (rangeOf rows)).altMin < (nudgeRange (rangeOf rows)).altMax) ∧
    ((∃ r ∈ rows, r.spd.isSome) →
       (nudgeRange (rangeOf rows)).spdMin < (nudgeRange (rangeOf rows)).spdMax) ∧
    (∀ A : ℚ, -(10 ^ 9) ≤ A → A ≤ 10 ^ 9 →
       (∃ r ∈ rows, r.alt.isSome) → (∀ r ∈ rows, r.alt = some A ∨ r.alt = none) →
       (nudgeRange (rangeOf rows)).altMin = A ∧
       (nudgeRange (rangeOf rows)).altMax = A + 1) ∧
    (∀ S : ℚ, -(10 ^ 9) ≤ S → S ≤ 10 ^ 9 →
       (∃ r ∈ rows, r.spd.isSome) → (∀ r ∈ rows, r.spd = some S ∨ r.spd = none) →
       (nudgeRange (rangeOf rows)).spdMin = S ∧
       (nudgeRange (rangeOf rows)).spdMax = S + 1) := by
  have hdec := foldl_updRange_decomp rows initRange
  have haMin : (rangeOf rows).altMin = ((rows.map Row.alt).foldl updPair (10 ^ 9, -(10 ^ 9))).1 := by
    rw [rangeOf, hdec]; rfl
  have haMax : (rangeOf rows).altMax = ((rows.map Row.alt).foldl updPair (10 ^ 9, -(10 ^ 9))).2 := by
    rw [rangeOf, hdec]; rfl
  have hsMin : (rangeOf rows).spdMin = ((rows.map Row.spd).foldl updPair (10 ^ 9, -(10 ^ 9))).1 := by
    rw [rangeOf, hdec]; rfl
  have hsMax : (rangeOf rows).spdMax = ((rows.map Row.spd).foldl updPair (10 ^ 9, -(10 ^ 9))).2 := by
    rw [rangeOf, hdec]; rfl
  have hna := nudge_alt_fields (rangeOf rows)
  have hns := nudge_spd_fields (rangeOf rows)
  refine ⟨?_, ?_, ?_, ?_⟩
  · intro hex
    have hle : (rangeOf rows).altMin ≤ (rangeOf rows).altMax := by
      rw [haMin, haMax]
      exact updPair_fold_exists_le _ (exists_map_isSome_of_rows Row.alt hex) _
    rw [hna.1, hna.2]
    split
    · linarith
    · rcases lt_or_eq_of_le hle with h | h
      · exact h
      · exact absurd h (by assumption)
  · intro hex
    have hle : (rangeOf rows).spdMin ≤ (rangeOf rows).spdMax := by
      rw [hsMin, hsMax]
      exact updPair_fold_exists_le _ (exists_map_isSome_of_rows Row.spd hex) _
    rw [hns.1, hns.2]
    split
    · linarith
    · rcases lt_or_eq_of_le hle with h | h
      · exact h
      · exact absurd h (by assumption)
  · intro A hlo hhi hex hall
    have hallm : ∀ v ∈ rows.map Row.alt, v = some A ∨ v = none := by
      intro v hv
      rcases List.mem_map.mp hv with ⟨r, hr, rfl⟩
      exact hall r hr
    have hfold := updPair_fold_const_init A hlo hhi (rows.map Row.alt) hallm
      (exists_map_isSome_of_rows Row.alt hex)
    have h1 : (rangeOf rows).altMin = A := by rw [haMin, hfold]
    have h2 : (rangeOf rows).altMax = A := by rw [haMax, hfold]
    rw [hna.1, hna.2, h1, h2]
    simp
  · intro S hlo hhi hex hall
    have hallm : ∀ v ∈ rows.map Row.spd, v = some S ∨ v = none := by
      intro v hv
      rcases List.mem_map.mp hv with ⟨r, hr, rfl⟩
      exact hall r hr
    have hfold := updPair_fold_const_init S hlo hhi (rows.map Row.spd) hallm
      (exists_map_isSome_of_rows Row.spd hex)
    have h1 : (rangeOf rows).spdMin = S := by rw [hsMin, hfold]
    have h2 : (rangeOf rows).spdMax = S := by rw [hsMax, hfold]
    rw [hns.1, hns.2, h1, h2]
    simp

/-- Claim C8 counterexample: with one sample of constant altitude
`A = 2e9`, every finite altitude equals `A`, yet after finalization
`altMin = 1e9 ≠ A` (the sentinel survives the min fold), so the claimed
`altMin = A ∧ altMax = A + 1` shape is false as stated. -/
theorem claim8_counterexample :
    (∀ r ∈ rowsHugeAlt, r.alt = some ((2 : ℚ) * 10 ^ 9)) ∧
    (nudgeRange (rangeOf rowsHugeAlt)).altMin ≠ 2 * 10 ^ 9 := by
  constructor
  · intro r hr
    simp only [rowsHugeAlt, List.mem_singleton] at hr
    subst hr; rfl
  · with_unfolding_all decide

/-- Witness for claim C8: a one-row dataset with constant altitude 100 and
constant speed 10 finalizes to the ranges `(100, 101)` and `(10, 11)`. -/
theorem claim8_witness :
    (nudgeRange (rangeOf [{ row0 with alt := some 100, spd := some 10 }])).altMin = 100 ∧
    (nudgeRange (rangeOf [{ row0 with alt := some 100, spd := some 10 }])).altMax = 100 + 1 ∧
    (nudgeRange (rangeOf [{ row0 with alt := some 100, spd := some 10 }])).spdMin = 10 ∧
    (nudgeRange (rangeOf [{ row0 with alt := some 100, spd := some 10 }])).spdMax = 10 + 1 := by
  have h := claim8_theorem [{ row0 with alt := some 100, spd := some 10 }]
  have ha := h.2.2.1 100 (by norm_num) (by norm_num)
    ⟨{ row0 with alt := some 100, spd := some 10 }, by simp, rfl⟩
    (by intro r hr; simp only [List.mem_singleton] at hr; subst hr; left; rfl)
  have hs := h.2.2.2 10 (by norm_num) (by norm_num)
    ⟨{ row0 with alt := some 100, spd := some 10 }, by simp, rfl⟩
    (by intro r hr; simp only [List.mem_singleton] at hr; subst hr; left; rfl)
  exact ⟨ha.1, ha.2, hs.1, hs.2⟩

/-! ### Flight-phase characterization (claim C3) -/

theorem rowAt_cons_zero (r : Row) (l : List Row) : rowAt (r :: l) 0 = r := rfl

theorem rowAt_cons_succ (r : Row) (l : List Row) (j : ℕ) :
    rowAt (r :: l) (j + 1) = rowAt l j := rfl

theorem rowAt_drop (rows : List Row) (t n : ℕ) :
    rowAt (rows.drop t) n = rowAt rows (t + n) := by
  simp [rowAt, List.get?_drop]

theorem findIdxFrom_eq_some_iff (p : Row → Bool) :
    ∀ (l : List Row) (k m : ℕ),
      findIdxFrom p l k = some m ↔
        (k ≤ m ∧ m - k < l.length ∧ p (rowAt l (m - k)) = true ∧
         ∀ j, j < m - k → p (rowAt l j) = false) := by
  intro l
  induction l with
  | nil =>
    intro k m
    simp only [findIdxFrom, List.length_nil]
    constructor
    · intro h; cases h
    · rintro ⟨-, h2, -⟩; exact absurd h2 (Nat.not_lt_zero _)
  | cons r rest ih =>
    intro k m
    by_cases hp : p r = true
    · simp only [findIdxFrom, hp, if_true]
      constructor
      · intro h
        injection h with h; subst h
        refine ⟨le_refl _, by simp, ?_, ?_⟩
        · simpa [Nat.sub_self, rowAt_cons_zero] using hp
        · intro j hj; omega
      · rintro ⟨h1, h2, h3, h4⟩
        by_cases hm : m = k
        · subst hm; rfl
        · exfalso
          have hgt : 0 < m - k := by omega
          have h0 := h4 0 hgt
          rw [rowAt_cons_zero] at h0
          rw [hp] at h0
          cases h0
    · have hpf : p r = false := by
        cases hr : p r
        · rfl
        · exact absurd hr hp
      simp only [findIdxFrom, hpf, Bool.false_eq_true, if_false]
      rw [ih (k + 1) m]
      constructor
      · rintro ⟨h1, h2, h3, h4⟩
        have hsub : m - k = (m - (k + 1)) + 1 := by omega
        refine ⟨by omega, by simp; omega, ?_, ?_⟩
        · rw [hsub, rowAt_cons_succ]; exact h3
        · intro j hj
          cases j with
          | zero => rw [rowAt_cons_zero]; exact hpf
          | succ j' =>
            rw [rowAt_cons_succ]
            exact h4 j' (by omega)
      · rintro ⟨h1, h2, h3, h4⟩
        have hne : m ≠ k := by
          intro h; subst h
          rw [Nat.sub_self, rowAt_cons_zero] at h3
          rw [hpf] at h3; cases h3
        have hsub : m - k = (m - (k + 1)) + 1 := by omega
        refine ⟨by omega, by simp at h2; omega, ?_, ?_⟩
        · rw [hsub, rowAt_cons_succ] at h3; exact h3
        · intro j hj
          have := h4 (j + 1) (by omega)
          rw [rowAt_cons_succ] at this
          exact this

theorem pairScan_eq_some_iff :
    ∀ (l : List Row) (prev : Row) (i m : ℕ),
      pairScan prev l i = some m ↔
        (i ≤ m ∧ m - i < l.length ∧
         landingPredB (rowAt (prev :: l) (m - i)) (rowAt l (m - i)) = true ∧
         ∀ j, j < m - i →
           landingPredB (rowAt (prev :: l) j) (rowAt l j) = false) := by
  intro l
  induction l with
  | nil =>
    intro prev i m
    simp only [pairScan, List.length_nil]
    constructor
    · intro h; cases h
    · rintro ⟨-, h2, -⟩; exact absurd h2 (Nat.not_lt_zero _)
  | cons c rest ih =>
    intro prev i m
    by_cases hp : landingPredB prev c = true
    · simp only [pairScan, hp, if_true]
      constructor
      · intro h
        injection h with h; subst h
        refine ⟨le_refl _, by simp, ?_, ?_⟩
        · simpa [Nat.sub_self, rowAt_cons_zero] using hp
        · intro j hj; omega
      · rintro ⟨h1, h2, h3, h4⟩
        by_cases hm : m = i
        · subst hm; rfl
        · exfalso
          have hgt : 0 < m - i := by omega
          have h0 := h4 0 hgt
          rw [rowAt_cons_zero, rowAt_cons_zero] at h0
          rw [hp] at h0
          cases h0
    · have hpf : landingPredB prev c = false := by
        cases hr : landingPredB prev c
        · rfl
        · exact absurd hr hp
      simp only [pairScan, hpf, Bool.false_eq_true, if_false]
      rw [ih c (i + 1) m]
      constructor
      · rintro ⟨h1, h2, h3, h4⟩
        have hsub : m - i = (m - (i + 1)) + 1 := by omega
        refine ⟨by omega, by simp; omega, ?_, ?_⟩
        · rw [hsub, rowAt_cons_succ, rowAt_cons_succ]; exact h3
        · intro j hj
          cases j with
          | zero => rw [rowAt_cons_zero, rowAt_cons_zero]; exact hpf
          | succ j' =>
            rw [rowAt_cons_succ, rowAt_cons_succ]
            exact h4 j' (by omega)
      · rintro ⟨h1, h2, h3, h4⟩
        have hne : m ≠ i := by
          intro h; subst h
          rw [Nat.sub_self, rowAt_cons_zero, rowAt_cons_zero] at h3
          rw [hpf] at h3; cases h3
        have hsub : m - i = (m - (i + 1)) + 1 := by omega
        refine ⟨by omega, by simp at h2; omega, ?_, ?_⟩
        · rw [hsub, rowAt_cons_succ, rowAt_cons_succ] at h3; exact h3
        · intro j hj
          have := h4 (j + 1) (by omega)
          rw [rowAt_cons_succ, rowAt_cons_succ] at this
          exact this

theorem landingIdxOf_eq_some_iff (rows : List Row) (t m : ℕ) :
    landingIdxOf rows t = some m ↔
      (t < m ∧ m < rows.length ∧
       landingPredB (rowAt rows (m - 1)) (rowAt rows m) = true ∧
       ∀ k, t < k → k < m →
         landingPredB (rowAt rows (k - 1)) (rowAt rows k) = false) := by
  unfold landingIdxOf
  cases hd : rows.drop t with
  | nil =>
    have hlen : rows.length ≤ t := by
      have := List.drop_eq_nil_iff_le.mp hd
      exact this
    constructor
    · intro h; cases h
    · rintro ⟨h1, h2, -⟩; omega
  | cons p rest =>
    have hlt : t < rows.length := by
      by_contra hle
      rw [List.drop_eq_nil_of_le (by omega)] at hd
      cases hd
    have hp : p = rowAt rows t := by
      have := rowAt_drop rows t 0
      rw [hd] at this
      simpa [rowAt_cons_zero] using this
    have hrest : ∀ n, rowAt rest n = rowAt rows (t + 1 + n) := by
      intro n
      have h1 := rowAt_drop rows t (n + 1)
      rw [hd, rowAt_cons_succ] at h1
      rw [h1]
      congr 1
      omega
    have hcons : ∀ n, rowAt (p :: rest) n = rowAt rows (t + n) := by
      intro n
      have h1 := rowAt_drop rows t n
      rw [hd] at h1
      exact h1
    have hlenr : rest.length = rows.length - (t + 1) := by
      have := congrArg List.length hd
      simp at this
      omega
    rw [pairScan_eq_some_iff rest p (t + 1) m]
    constructor
    · rintro ⟨h1, h2, h3, h4⟩
      have hm1 : m - (t + 1) = m - 1 - t := by omega
      refine ⟨by omega, by omega, ?_, ?_⟩
      · rw [hcons, hrest] at h3
        have e1 : t + (m - (t + 1)) = m - 1 := by omega
        have e2 : t + 1 + (m - (t + 1)) = m := by omega
        rw [e1, e2] at h3
        exact h3
      · intro k hk1 hk2
        have := h4 (k - (t + 1)) (by omega)
        rw [hcons, hrest] at this
        have e1 : t + (k - (t + 1)) = k - 1 := by omega
        have e2 : t + 1 + (k - (t + 1)) = k := by omega
        rw [e1, e2] at this
        exact this
    · rintro ⟨h1, h2, h3, h4⟩
      refine ⟨by omega, by omega, ?_, ?_⟩
      · rw [hcons, hrest]
        have e1 : t + (m - (t + 1)) = m - 1 := by omega
        have e2 : t + 1 + (m - (t + 1)) = m := by omega
        rw [e1, e2]
        exact h3
      · intro j hj
        rw [hcons, hrest]
        have := h4 (t + 1 + j) (by omega) (by omega)
        have e1 : t + 1 + j - 1 = t + j := by omega
        rw [e1] at this
        exact this

theorem findIdxFrom_eq_none_iff (p : Row → Bool) :
    ∀ (l : List Row) (k : ℕ), findIdxFrom p l k = none ↔ ∀ r ∈ l, p r = false := by
  intro l
  induction l with
  | nil => intro k; simp [findIdxFrom]
  | cons r rest ih =>
    intro k
    by_cases hp : p r = true
    · simp [findIdxFrom, hp]
    · have hpf : p r = false := by
        cases hr : p r
        · rfl
        · exact absurd hr hp
      simp [findIdxFrom, hpf, ih (k + 1)]

theorem forall_rowAt_iff (p : Row → Bool) (rows : List Row) :
    (∀ r ∈ rows, p r = false) ↔ (∀ j, j < rows.length → p (rowAt rows j) = false) := by
  constructor
  · intro h j hj
    have hg : rows.get? j = some (rows.get ⟨j, hj⟩) := List.get?_eq_get hj
    rw [rowAt, hg]
    exact h _ (rows.get_mem _ _)
  · intro h r hr
    rcases List.mem_iff_get.mp hr with ⟨n, rfl⟩
    have hn := h n n.isLt
    rw [rowAt, List.get?_eq_get n.isLt] at hn
    simpa using hn

/-- Claim C3: `takeoffIdx` is exactly the first index whose row has a finite
timestamp, finite altitude and altitude > 0 (`none` when no row qualifies),
and `landingIdx` is exactly the first index `j` strictly after the takeoff
index whose previous row has finite nonzero altitude, whose own altitude is
finite and exactly 0, and whose own timestamp is finite; on the example
altitude sequence `[0,0,150,300,150,0,0]` with strictly increasing finite
timestamps the scan yields takeoff index 2 and landing index 5. -/
theorem claim3_theorem :
    (∀ (rows : List Row) (i : ℕ),
       takeoffIdxOf rows = some i ↔
         (i < rows.length ∧ takeoffPred (rowAt rows i) = true ∧
          ∀ j, j < i → takeoffPred (rowAt rows j) = false)) ∧
    (∀ rows : List Row,
       takeoffIdxOf rows = none ↔
         ∀ j, j < rows.length → takeoffPred (rowAt rows j) = false) ∧
    (∀ (rows : List Row) (t m : ℕ),
       landingIdxOf rows t = some m ↔
         (t < m ∧ m < rows.length ∧
          landingPredB (rowAt rows (m - 1)) (rowAt rows m) = true ∧
          ∀ k, t < k → k < m →
            landingPredB (rowAt rows (k - 1)) (rowAt rows k) = false)) ∧
    (takeoffIdxOf rowsPhaseEx = some 2 ∧ landingIdxOf rowsPhaseEx 2 = some 5) := by
  refine ⟨?_, ?_, ?_, ?_, ?_⟩
  · intro rows i
    have h := findIdxFrom_eq_some_iff takeoffPred rows 0 i
    simpa [takeoffIdxOf] using h
  · intro rows
    exact Iff.trans (findIdxFrom_eq_none_iff takeoffPred rows 0)
      (forall_rowAt_iff takeoffPred rows)
  · intro rows t m
    exact landingIdxOf_eq_some_iff rows t m
  · with_unfolding_all decide
  · with_unfolding_all decide

/-- Witness for claim C3: the takeoff characterization instantiated on the
example dataset at its detected takeoff index 2. -/
theorem claim3_witness :
    2 < rowsPhaseEx.length ∧ takeoffPred (rowAt rowsPhaseEx 2) = true ∧
    ∀ j, j < 2 → takeoffPred (rowAt rowsPhaseEx j) = false :=
  (claim3_theorem.1 rowsPhaseEx 2).mp claim3_theorem.2.2.2.1

/-! ### Average in-flight speed (claim C4) -/

theorem segStep_eq (rows : List Row) (acc : ℚ × ℚ) (i : ℕ) :
    segStep rows acc i = (acc.1 + (segContrib rows i).1, acc.2 + (segContrib rows i).2) := by
  unfold segStep segContrib
  cases ha : rows.get? i with
  | none => simp
  | some a =>
    cases hb : rows.get? (i + 1) with
    | none => simp
    | some b =>
      cases hta : a.timestampMs with
      | none => simp [hta]
      | some ta =>
        cases htb : b.timestampMs with
        | none => simp [hta, htb]
        | some tb =>
          cases haa : a.alt with
          | none => simp [hta, htb, haa]
          | some aa =>
            cases hba : b.alt with
            | none => simp [hta, htb, haa, hba]
            | some ba =>
              cases hsa : a.spd with
              | none => simp [hta, htb, haa, hba, hsa]
              | some sa =>
                cases hsb : b.spd with
                | none => simp [hta, htb, haa, hba, hsa, hsb]
                | some sb =>
                  simp only [hta, htb, haa, hba, hsa, hsb]
                  by_cases hdt : (tb - ta) / 1000 ≤ 0
                  · have hC : ¬(ta < tb ∧ 0 < aa ∧ 0 < ba) := by
                      rintro ⟨h, -, -⟩; linarith
                    simp [hdt, hC]
                  · by_cases hab : aa ≤ 0 ∨ ba ≤ 0
                    · have hC : ¬(ta < tb ∧ 0 < aa ∧ 0 < ba) := by
                        rintro ⟨-, h2, h3⟩
                        rcases hab with h | h <;> linarith
                      simp [hdt, hab, hC]
                    · push_neg at hab
                      push_neg at hdt
                      have hC : ta < tb ∧ 0 < aa ∧ 0 < ba :=
                        ⟨by linarith, hab.1, hab.2⟩
                      simp [not_le.mpr hdt, hC,
                        show ¬(aa ≤ 0 ∨ ba ≤ 0) from by
                          rintro (h | h) <;> linarith]

theorem foldl_segStep_eq (rows : List Row) (l : List ℕ) :
    ∀ acc : ℚ × ℚ,
      l.foldl (segStep rows) acc
        = (acc.1 + (l.map (fun i => (segContrib rows i).1)).sum,
           acc.2 + (l.map (fun i => (segContrib rows i).2)).sum) := by
  induction l with
  | nil => intro acc; simp
  | cons i l ih =>
    intro acc
    rw [List.foldl_cons, segStep_eq, ih]
    simp [add_assoc]

/-- Claim C4: over the detected span `[s, e)` the displayed average equals
the time-weighted trapezoidal average: each adjacent pair contributes
`0.5·(a.spd + b.spd)·dt` to the weighted sum and `dt` to the total duration
exactly when `dt = (b.timestampMs − a.timestampMs)/1000 > 0`, both
altitudes are finite and positive, and both speeds are finite; the result
is `weightedSum / totalDuration` when the total duration is positive and
none otherwise. -/
theorem claim4_theorem (rows : List Row) (s e : ℕ)
    (h : detectedSpan rows = some (s, e)) :
    avgSpeedOf rows =
      (if 0 < trapDuration rows s e
       then some (trapWeighted rows s e / trapDuration rows s e) else none) := by
  unfold avgSpeedOf
  rw [h]
  simp only [foldl_segStep_eq, zero_add]
  rfl

/-- Witness for claim C4: the phase-detection example dataset has detected
span `[2, 5)` and its displayed average satisfies the trapezoidal formula. -/
theorem claim4_witness :
    detectedSpan rowsPhaseEx = some (2, 5) ∧
    avgSpeedOf rowsPhaseEx =
      (if 0 < trapDuration rowsPhaseEx 2 5
       then some (trapWeighted rowsPhaseEx 2 5 / trapDuration rowsPhaseEx 2 5) else none) :=
  ⟨by with_unfolding_all decide,
   claim4_theorem rowsPhaseEx 2 5 (by with_unfolding_all decide)⟩

/-! ### Direction classifier (claim C5) -/

theorem jsRem_eq_of_nonneg (x : ℚ) (hx : 0 ≤ x) :
    jsRem x 360 = x - 360 * ⌊x / 360⌋ := by
  unfold jsRem ratTrunc
  rw [if_neg (not_lt.mpr (by positivity))]

theorem jsRem_bounds (x : ℚ) (hx : 0 ≤ x) :
    0 ≤ jsRem x 360 ∧ jsRem x 360 < 360 := by
  rw [jsRem_eq_of_nonneg x hx]
  constructor
  · have h := Int.floor_le (x / 360)
    have h360 : (360 : ℚ) * ⌊x / 360⌋ ≤ x := by
      have := mul_le_mul_of_nonneg_left h (by norm_num : (0 : ℚ) ≤ 360)
      calc (360 : ℚ) * ⌊x / 360⌋ ≤ 360 * (x / 360) := this
        _ = x := by ring
    linarith
  · have h := Int.lt_floor_add_one (x / 360)
    have h360 : x < 360 * ⌊x / 360⌋ + 360 := by
      have := mul_lt_mul_of_pos_left h (by norm_num : (0 : ℚ) < 360)
      calc x = 360 * (x / 360) := by ring
        _ < 360 * ((⌊x / 360⌋ : ℚ) + 1) := this
        _ = 360 * ⌊x / 360⌋ + 360 := by ring
    linarith

/-- Claim C5 (amended): the classifier computes
`dlon = ((lon2 − lon1 + 540) % 360) − 180` with the JavaScript remainder
and follows exactly the claimed decision table (Unknown on near-identical
points, latitude tie-break on the same meridian, otherwise Eastbound iff
`dlon > 0`); for longitudes in `[-180, 180]` the wrapped delta is congruent
to `lon2 − lon1` modulo 360 and lies in `[-180, 180)`.  However the example
`(40,-100) → (40,170)` yields `dlon = (810 % 360) − 180 = −90 < 0`, hence
Westbound, not Eastbound as the claim states; `(0,10) → (0,10)` gives
Unknown. -/
theorem claim5_theorem :
    (updateTrackDir (some 40) (some (-100)) (some 40) (some 170) = some Dir.W) ∧
    (updateTrackDir (some 0) (some 10) (some 0) (some 10) = none) ∧
    (∀ lo1 lo2 : ℚ, -180 ≤ lo1 → lo1 ≤ 180 → -180 ≤ lo2 → lo2 ≤ 180 →
       (∃ k : ℤ, dlonOf lo1 lo2 = lo2 - lo1 + 360 * k) ∧
       -180 ≤ dlonOf lo1 lo2 ∧ dlonOf lo1 lo2 < 180) ∧
    (∀ la1 lo1 la2 lo2 : ℚ,
       (updateTrackDir (some la1) (some lo1) (some la2) (some lo2) = none ↔
         (|dlonOf lo1 lo2| < 1/1000000 ∧ |la2 - la1| < 1/1000000)) ∧
       (updateTrackDir (some la1) (some lo1) (some la2) (some lo2) = some Dir.E ↔
         ((|dlonOf lo1 lo2| < 1/1000000 ∧ ¬ |la2 - la1| < 1/1000000 ∧ la1 < la2) ∨
          (¬ |dlonOf lo1 lo2| < 1/1000000 ∧ 0 < dlonOf lo1 lo2))) ∧
       (updateTrackDir (some la1) (some lo1) (some la2) (some lo2) = some Dir.W ↔
         ((|dlonOf lo1 lo2| < 1/1000000 ∧ ¬ |la2 - la1| < 1/1000000 ∧ ¬ la1 < la2) ∨
          (¬ |dlonOf lo1 lo2| < 1/1000000 ∧ ¬ 0 < dlonOf lo1 lo2)))) := by
  refine ⟨by with_unfolding_all decide, by with_unfolding_all decide, ?_, ?_⟩
  · intro lo1 lo2 h1 h2 h3 h4
    have hx : (0 : ℚ) ≤ lo2 - lo1 + 540 := by linarith
    have hb := jsRem_bounds (lo2 - lo1 + 540) hx
    refine ⟨⟨1 - ⌊(lo2 - lo1 + 540) / 360⌋, ?_⟩, ?_, ?_⟩
    · rw [dlonOf, jsRem_eq_of_nonneg _ hx]
      push_cast
      ring
    · rw [dlonOf]; linarith [hb.1]
    · rw [dlonOf]; linarith [hb.2]
  · intro la1 lo1 la2 lo2
    unfold updateTrackDir
    simp only [dlonOf]
    split_ifs with hd hl hlt <;>
      simp_all [Dir.E, Dir.W]

/-- Witness for claim C5: the wrapped-delta properties instantiated at the
example pair of longitudes `(-100, 170)`. -/
theorem claim5_witness :
    (∃ k : ℤ, dlonOf (-100) 170 = 170 - (-100) + 360 * k) ∧
    -180 ≤ dlonOf (-100) 170 ∧ dlonOf (-100) 170 < 180 :=
  claim5_theorem.2.2.1 (-100) 170 (by norm_num) (by norm_num) (by norm_num) (by norm_num)

/-- Claim C5 counterexample: the classifier maps `(40,-100) → (40,170)` to
Westbound (`dlon = −90`), refuting the claimed Eastbound classification at
that input. -/
theorem claim5_counterexample :
    updateTrackDir (some 40) (some (-100)) (some 40) (some 170) = some Dir.W ∧
    (some Dir.W : Option Dir) ≠ some Dir.E :=
  ⟨by with_unfolding_all decide, by decide⟩

/-! ### Speed encoder (claims C7 and C9) -/

theorem bandIdxOf_neg (v : ℚ) (hv : v < 0) : bandIdxOf v = none := by
  have h0 : ¬ ((0 : ℚ) ≤ v) := not_le.mpr hv
  have h40 : ¬ ((40 : ℚ) ≤ v) := not_le.mpr (by linarith)
  have h160 : ¬ ((160 : ℚ) ≤ v) := not_le.mpr (by linarith)
  have h300 : ¬ ((300 : ℚ) ≤ v) := not_le.mpr (by linarith)
  have h420 : ¬ ((420 : ℚ) ≤ v) := not_le.mpr (by linarith)
  have h520 : ¬ ((520 : ℚ) ≤ v) := not_le.mpr (by linarith)
  simp [bandIdxOf, SPEED_BANDS, bandIdxAux, bandMatch, h0, h40, h160, h300, h420, h520]

/-- Claim C9: a finite speed strictly below the lowest band's minimum
(`speed < 0`) matches no band and falls back to the last band's color
(pink, alpha 92) — the same fallback used for non-finite speeds — and not
to the first band's color. -/
theorem claim9_theorem (q : ℚ) (hq : q < 0) :
    speedColor (some q) = speedColorFallback ∧
    speedColor (some q) = speedColor none ∧
    speedColorFallback = ⟨255, 55, 95, 92⟩ ∧
    speedColorFallback ≠ ⟨255, 66, 69, 92⟩ := by
  have hb := bandIdxOf_neg q hq
  refine ⟨?_, ?_, by with_unfolding_all decide, by with_unfolding_all decide⟩
  · simp [speedColor, hb]
  · simp [speedColor, hb]

/-- Witness for claim C9 at the concrete speed `−1` knots. -/
theorem claim9_witness :
    speedColor (some (-1)) = speedColorFallback ∧
    speedColor (some (-1)) = speedColor none ∧
    speedColorFallback = ⟨255, 55, 95, 92⟩ ∧
    speedColorFallback ≠ ⟨255, 66, 69, 92⟩ :=
  claim9_theorem (-1) (by norm_num)

/-- Claim C7: at every internal band boundary `B ∈ {40,160,300,420,520}`
the colors for `B − 0.001` and `B + 0.001` differ in each RGB channel by at
most one rounding unit (the two one-sided limits agree up to rounding), so
the band smoothing is continuous across every fixed boundary. -/
theorem claim7_theorem :
    chanClose (speedColor (some (40 - 1/1000))) (speedColor (some (40 + 1/1000))) ∧
    chanClose (speedColor (some (160 - 1/1000))) (speedColor (some (160 + 1/1000))) ∧
    chanClose (speedColor (some (300 - 1/1000))) (speedColor (some (300 + 1/1000))) ∧
    chanClose (speedColor (some (420 - 1/1000))) (speedColor (some (420 + 1/1000))) ∧
    chanClose (speedColor (some (520 - 1/1000))) (speedColor (some (520 + 1/1000))) := by
  with_unfolding_all decide

/-! ### Rosette closure (claim C2) -/

theorem closeLoop_length (pts : List Pt) : (closeLoop pts).length = pts.length + 2 := by
  simp [closeLoop]

theorem closeLoop_get_n (pts : List Pt) :
    (closeLoop pts).get? pts.length = some (pts.get? 0) := by
  unfold closeLoop
  rw [List.get?_append_right (by simp)]
  simp

theorem closeLoop_get_n1 (pts : List Pt) :
    (closeLoop pts).get? (pts.length + 1) = some (pts.get? 1) := by
  unfold closeLoop
  rw [List.get?_append_right (by simp)]
  simp

theorem closeLoop_get_lt (pts : List Pt) (n : ℕ) (hn : n < pts.length) :
    (closeLoop pts).get? n = (pts.get? n).map some := by
  unfold closeLoop
  rw [List.get?_append (by simpa using hn)]
  exact List.get?_map some pts n

theorem rosettePts_length (P : Prims) (w h : ℚ) (st en : Option ℚ) (altMin altMax : ℚ)
    (rows : List Row) :
    (rosettePts P w h st en altMin altMax rows).length = rows.length := by
  simp [rosettePts]

/-- Claim C2 (amended): for every non-empty track of `N` samples the
rosette sequence has length `N + 2` and `rosettePoints[N] =
rosettePoints[0]`; the second closure identity `rosettePoints[N+1] =
rosettePoints[1]` holds whenever `N ≥ 2` (for `N = 1` the final pushed
entry is JavaScript `undefined`, because `pts[1]` does not exist at push
time — see the counterexample). -/
theorem claim2_theorem (P : Prims) (w h : ℚ) (st en : Option ℚ) (altMin altMax : ℚ)
    (rows : List Row) (hne : rows ≠ []) :
    (buildRosettePoints P w h st en altMin altMax rows).length = rows.length + 2 ∧
    (buildRosettePoints P w h st en altMin altMax rows).get? rows.length
      = (buildRosettePoints P w h st en altMin altMax rows).get? 0 ∧
    (2 ≤ rows.length →
      (buildRosettePoints P w h st en altMin altMax rows).get? (rows.length + 1)
        = (buildRosettePoints P w h st en altMin altMax rows).get? 1) := by
  unfold buildRosettePoints
  have hlen := rosettePts_length P w h st en altMin altMax rows
  set pts := rosettePts P w h st en altMin altMax rows with hdef
  have hpos : 0 < pts.length := by
    rw [hlen]
    exact List.length_pos.mpr hne
  refine ⟨by rw [closeLoop_length, hlen], ?_, ?_⟩
  · rw [← hlen, closeLoop_get_n, closeLoop_get_lt pts 0 hpos, List.get?_eq_get hpos]
    rfl
  · intro h2
    have hpos1 : 1 < pts.length := by omega
    rw [show rows.length + 1 = pts.length + 1 by omega, closeLoop_get_n1,
      closeLoop_get_lt pts 1 hpos1, List.get?_eq_get hpos1]
    rfl

/-- Claim C2 counterexample: for a track with a single sample (`N = 1`),
`rosettePoints[N+1]` is the `undefined` placeholder while
`rosettePoints[1]` is the appended copy of the first point, so the claimed
identity `rosettePoints[N+1] = rosettePoints[1]` fails at `N = 1`. -/
theorem claim2_counterexample :
    rowsOne.length = 1 ∧
    (buildRosettePoints prims0 100 100 (some 0) (some 1000) 0 1 rowsOne).get? (1 + 1)
      ≠ (buildRosettePoints prims0 100 100 (some 0) (some 1000) 0 1 rowsOne).get? 1 := by
  exact ⟨by rfl, by with_unfolding_all decide⟩

/-- Witness for claim C2 on a concrete two-sample track. -/
theorem claim2_witness :
    (buildRosettePoints prims0 100 100 (some 0) (some 1000) 0 1 rowsTwo).length
      = rowsTwo.length + 2 ∧
    (buildRosettePoints prims0 100 100 (some 0) (some 1000) 0 1 rowsTwo).get? rowsTwo.length
      = (buildRosettePoints prims0 100 100 (some 0) (some 1000) 0 1 rowsTwo).get? 0 ∧
    (2 ≤ rowsTwo.length →
      (buildRosettePoints prims0 100 100 (some 0) (some 1000) 0 1 rowsTwo).get?
          (rowsTwo.length + 1)
        = (buildRosettePoints prims0 100 100 (some 0) (some 1000) 0 1 rowsTwo).get? 1) :=
  claim2_theorem prims0 100 100 (some 0) (some 1000) 0 1 rowsTwo
    (by with_unfolding_all decide)

/-! ### Pointer-to-sample resolver (claim C6) -/

theorem invertAngleT_forward (piv t : ℚ) (hpi : 0 < piv) (h0 : 0 ≤ t) (h1 : t < 1) :
    invertAngleT piv (forwardAngle piv t) = t := by
  have h2piv : (0 : ℚ) < 2 * piv := by linarith
  have hne : (2 * piv : ℚ) ≠ 0 := ne_of_gt h2piv
  simp only [invertAngleT, forwardAngle, jsRem, ratTrunc]
  have harg : piv / 2 + t * (2 * piv) - piv / 2 = t * (2 * piv) := by ring
  rw [harg]
  have hq : t * (2 * piv) / (2 * piv) = t := by field_simp
  rw [hq]
  have hfl : ⌊t⌋ = 0 := Int.floor_eq_zero_iff.mpr ⟨h0, h1⟩
  rw [if_neg (not_lt.mpr h0), hfl]
  have hx0 : (0 : ℚ) ≤ t * (2 * piv) := mul_nonneg h0 (le_of_lt h2piv)
  have hsub : t * (2 * piv) - 2 * piv * ((0 : ℤ) : ℚ) = t * (2 * piv) := by
    push_cast; ring
  rw [hsub, if_neg (not_lt.mpr hx0), hq]

theorem bestScan_stay (target : ℚ) :
    ∀ (l : List Row) (k bi : ℕ) (d : ℚ),
      (∀ j, j < l.length → ∀ ts, (rowAt l j).timestampMs = some ts →
         ¬(|ts - target| < d)) →
      bestScan target l k (bi, some d) = (bi, some d) := by
  intro l
  induction l with
  | nil => intro k bi d _; rfl
  | cons r rest ih =>
    intro k bi d hyp
    have hshift : ∀ j, j < rest.length → ∀ ts, (rowAt rest j).timestampMs = some ts →
        ¬(|ts - target| < d) := by
      intro j hj ts hts
      exact hyp (j + 1) (by simp; omega) ts (by rwa [rowAt_cons_succ])
    cases hts : r.timestampMs with
    | none =>
      simp only [bestScan, hts]
      exact ih (k + 1) bi d hshift
    | some ts =>
      have hd := hyp 0 (by simp) ts (by rwa [rowAt_cons_zero])
      simp only [bestScan, hts, decide_eq_false hd, if_false, Bool.false_eq_true]
      exact ih (k + 1) bi d hshift

theorem bestScan_unique (target : ℚ) :
    ∀ (l : List Row) (k i : ℕ) (acc : ℕ × Option ℚ) (tsi : ℚ),
      k ≤ i → i - k < l.length →
      (rowAt l (i - k)).timestampMs = some tsi →
      (∀ d, acc.2 = some d → |tsi - target| < d) →
      (∀ j, j < l.length → k + j ≠ i →
         fartherThan (|tsi - target|) target ((rowAt l j).timestampMs)) →
      bestScan target l k acc = (i, some (|tsi - target|)) := by
  intro l
  induction l with
  | nil =>
    intro k i acc tsi _ hik
    exact absurd hik (Nat.not_lt_zero _)
  | cons r rest ih =>
    intro k i acc tsi hki hik hrow hacc hoth
    have hshift : ∀ j, j < rest.length → (k + 1) + j ≠ i →
        fartherThan (|tsi - target|) target ((rowAt rest j).timestampMs) := by
      intro j hj hne
      have := hoth (j + 1) (by simp; omega) (by omega)
      rwa [rowAt_cons_succ] at this
    by_cases hk : k = i
    · subst hk
      rw [Nat.sub_self, rowAt_cons_zero] at hrow
      have hbetter : (match acc.2 with
          | none => true
          | some bd => decide (|tsi - target| < bd)) = true := by
        cases hacc2 : acc.2 with
        | none => rfl
        | some bd => exact decide_eq_true (hacc bd hacc2)
      simp only [bestScan, hrow, hbetter, if_true]
      apply bestScan_stay
      intro j hj ts hts
      have hfar := hoth (j + 1) (by simp; omega) (by omega)
      rw [rowAt_cons_succ, hts] at hfar
      simp only [fartherThan] at hfar
      linarith
    · have hklt : k < i := lt_of_le_of_ne hki hk
      have hrow2 : (rowAt rest (i - (k + 1))).timestampMs = some tsi := by
        have he : i - k = (i - (k + 1)) + 1 := by omega
        rw [he, rowAt_cons_succ] at hrow
        exact hrow
      have hik2 : i - (k + 1) < rest.length := by simp at hik; omega
      cases hts : r.timestampMs with
      | none =>
        simp only [bestScan, hts]
        exact ih (k + 1) i acc tsi (by omega) hik2 hrow2 hacc hshift
      | some ts =>
        have hfar := hoth 0 (by simp) (by omega)
        rw [rowAt_cons_zero, hts] at hfar
        simp only [fartherThan] at hfar
        simp only [bestScan, hts]
        cases hacc2 : acc.2 with
        | none =>
          simp only [if_true]
          exact ih (k + 1) i (k, some (|ts - target|)) tsi (by omega) hik2 hrow2
            (by intro d hd; injection hd with hd; rw [← hd]; exact hfar) hshift
        | some bd =>
          by_cases hbb : |ts - target| < bd
          · simp only [decide_eq_true hbb, if_true]
            exact ih (k + 1) i (k, some (|ts - target|)) tsi (by omega) hik2 hrow2
              (by intro d hd; injection hd with hd; rw [← hd]; exact hfar) hshift
          · simp only [decide_eq_false hbb, Bool.false_eq_true, if_false]
            exact ih (k + 1) i acc tsi (by omega) hik2 hrow2 hacc hshift

theorem constrainZ_mem (x lo hi : ℤ) (h : lo ≤ hi) :
    lo ≤ constrainZ x lo hi ∧ constrainZ x lo hi ≤ hi :=
  ⟨le_max_right _ _, max_le (min_le_right _ _) h⟩

theorem constrainZ_eq_self (x lo hi : ℤ) (h1 : lo ≤ x) (h2 : x ≤ hi) :
    constrainZ x lo hi = x := by
  unfold constrainZ
  rw [min_eq_left h2, max_eq_left h1]

/-- Claim C6: (a) feeding the forward angle `π/2 + t·2π` of a time fraction
`t ∈ [0, 1)` through the resolver's inversion recovers `t` exactly (in the
exact-rational model there is no floating-point error to tolerate); (b) the
resolver returns a sample's own index whenever that sample's timestamp is
the unique closest one to the derived target time; (c) for any pointer
angle the returned index lies in `[0, sampleCount − 1]`. -/
theorem claim6_theorem :
    (∀ piv t : ℚ, 0 < piv → 0 ≤ t → t < 1 →
       invertAngleT piv (forwardAngle piv t) = t) ∧
    (∀ (piv t : ℚ) (rows : List Row) (st en : Option ℚ) (i : ℕ) (tsi : ℚ),
       0 < piv → 0 ≤ t → t < 1 → i < rows.length →
       (rowAt rows i).timestampMs = some tsi →
       (∀ j, j < rows.length → j ≠ i →
          fartherThan (|tsi - targetOf st en t|) (targetOf st en t)
            ((rowAt rows j).timestampMs)) →
       getIndexFromAngle piv rows st en (forwardAngle piv t) rows.length = (i : ℤ)) ∧
    (∀ (piv ang : ℚ) (rows : List Row) (st en : Option ℚ) (count : ℕ), 1 ≤ count →
       0 ≤ getIndexFromAngle piv rows st en ang count ∧
       getIndexFromAngle piv rows st en ang count ≤ (count : ℤ) - 1) := by
  refine ⟨invertAngleT_forward, ?_, ?_⟩
  · intro piv t rows st en i tsi hpi h0 h1 hi hrow hoth
    simp only [getIndexFromAngle]
    rw [invertAngleT_forward piv t hpi h0 h1]
    have hscan := bestScan_unique (targetOf st en t) rows 0 i (0, none) tsi
      (Nat.zero_le i) (by simpa using hi) (by simpa using hrow)
      (by intro d hd; cases hd)
      (by intro j hj hne; exact hoth j hj (by omega))
    rw [hscan]
    exact constrainZ_eq_self _ _ _ (by omega) (by omega)
  · intro piv ang rows st en count hcount
    have hle : (0 : ℤ) ≤ (count : ℤ) - 1 := by
      have : (1 : ℤ) ≤ (count : ℤ) := by exact_mod_cast hcount
      omega
    simp only [getIndexFromAngle]
    cases (bestScan (targetOf st en (invertAngleT piv ang)) rows 0 (0, none)).2 with
    | none => exact constrainZ_mem _ _ _ hle
    | some d => exact constrainZ_mem _ _ _ hle

/-- Witness for claim C6: with `t = 1/2` the derived target time is 1000 ms
and the unique nearest sample is index 1, which the resolver returns; the
returned index also lies within `[0, sampleCount − 1]`. -/
theorem claim6_witness :
    invertAngleT 3 (forwardAngle 3 (1/2)) = 1/2 ∧
    getIndexFromAngle 3 rowsPtr (some 0) (some 2000) (forwardAngle 3 (1/2))
      rowsPtr.length = (1 : ℤ) ∧
    (0 ≤ getIndexFromAngle 3 rowsPtr (some 0) (some 2000) (forwardAngle 3 (1/2))
        rowsPtr.length ∧
     getIndexFromAngle 3 rowsPtr (some 0) (some 2000) (forwardAngle 3 (1/2))
        rowsPtr.length ≤ (rowsPtr.length : ℤ) - 1) :=
  ⟨claim6_theorem.1 3 (1/2) (by norm_num) (by norm_num) (by norm_num),
   claim6_theorem.2.1 3 (1/2) rowsPtr (some 0) (some 2000) 1 1000
     (by norm_num) (by norm_num) (by norm_num) (by decide) (by decide)
     (by
       intro j hj hne
       have htv : targetOf (some 0) (some 2000) (1/2 : ℚ) = 1000 := by
         norm_num [targetOf]
       rw [htv]
       have hj3 : j < 3 := by simpa [rowsPtr] using hj
       interval_cases j
       · show fartherThan _ _ (some 0)
         simp only [fartherThan]
         norm_num
       · exact absurd rfl hne
       · show fartherThan _ _ (some 2000)
         simp only [fartherThan]
         norm_num),
   claim6_theorem.2.2 3 (forwardAngle 3 (1/2)) rowsPtr (some 0) (some 2000)
     rowsPtr.length (by decide)⟩

end SkyTrail
